import Mathlib

/-!
Verification of the date-extraction core of `src/services/stampSignatureService.ts`
(class `StampSignatureService`): the loose date-pattern scan (`DATE_PATTERNS` /
`extractDateFromText`), the strict per-format re-match and field parsing
(`DATE_FORMAT_MAP` / `parseAndValidateDate` / `parseDate`), the heuristic
confidence score (`calculateDateConfidence`) and the cross-region date
consistency check (`analyzeDateConsistency`).

Modelling conventions:
* Strings are handled as `List Char`; matched substrings are rebuilt with
  `String.mk`.
* Each JavaScript regular expression of the source is embedded as a hand-rolled
  matcher of type `List Char → List Nat` returning the lengths of all matches
  at the head position in the engine's backtracking preference order (greedy
  quantifiers first, alternation in source order); the head of the list is the
  match the engine reports.
* JavaScript numbers are modelled exactly: the confidence arithmetic over `ℚ`,
  timestamps and calendar arithmetic over `ℤ` (epoch day counts; a JS `Date`
  holds `days * 86400000` milliseconds for a midnight date).
* The ambient environment that the source reads is passed explicitly:
  `cy` is `new Date().getFullYear()` (the current year) and `tz` is the host
  timezone offset in minutes east of UTC (`new Date(y,m,d)` builds a *local*
  midnight, `toISOString` serializes in UTC, so the stored date string shifts
  by one day when `tz > 0`).
* The generic fallback `new Date(dateString)` delegates to the host's
  implementation-defined legacy string parser (the spec itself calls its
  behavior ambiguous); it is passed in as a parameter
  `fb : String → Option Int` returning the UTC epoch-day of the parsed date,
  or `none` for an Invalid Date.
-/

/-- `\d` of the source regexes: exactly the ASCII digits. -/
def isDigitCh (c : Char) : Bool := '0' ≤ c && c ≤ '9'

/-- The separator class `[\/\-\.]` used by the numeric date patterns. -/
def isSepCh (c : Char) : Bool := c = '/' || c = '-' || c = '.'

/-- `\s` (JS whitespace), restricted to the ASCII whitespace characters that can
occur in the inputs considered here. -/
def isJsSpace (c : Char) : Bool :=
  c = ' ' || c = '\t' || c = '\n' || c = '\r' || c = '\x0b' || c = '\x0c'

/-- A matcher: the lengths of all matches at the head of the input, in the
JS engine's preference order (the engine reports the head of the list). -/
abbrev Matcher := List Char → List Nat

/-- Sequencing of matchers, with backtracking in preference order. -/
def mseq (p q : Matcher) : Matcher :=
  fun cs => (p cs).flatMap (fun n => (q (cs.drop n)).map (fun m => n + m))

/-- A single character from a class. -/
def mclass (f : Char → Bool) : Matcher :=
  fun cs =>
    match cs with
    | [] => []
    | c :: _ => if f c then [1] else []

/-- `\d{1,2}`: greedy, so two digits are preferred over one. -/
def mdig12 : Matcher :=
  fun cs =>
    match cs with
    | [] => []
    | [a] => if isDigitCh a then [1] else []
    | a :: b :: _ =>
      if isDigitCh a then (if isDigitCh b then [2, 1] else [1]) else []

/-- `\d{k}` for a fixed `k`. -/
def mdigExact (k : Nat) : Matcher :=
  fun cs =>
    if (cs.take k).length = k && (cs.take k).all isDigitCh then [k] else []

/-- Length of the leading run of characters satisfying `f`. -/
def runLen (f : Char → Bool) : List Char → Nat
  | [] => 0
  | c :: r => if f c then runLen f r + 1 else 0

/-- `\s+`: greedy, preferring the longest run, backtracking one at a time. -/
def mspaces : Matcher :=
  fun cs =>
    let k := runLen isJsSpace cs
    (List.range k).map (fun i => k - i)

/-- Case-insensitive literal (the source's month alternations carry the `i`
flag); `ci = false` gives an exact literal. -/
def mlit (ci : Bool) (lit : List Char) : Matcher :=
  fun cs =>
    let pre := cs.take lit.length
    let eq := if ci then pre.map Char.toLower = lit.map Char.toLower
              else pre = lit
    if pre.length = lit.length && eq then [lit.length] else []

/-- An ordered alternation of case-insensitive literals, in source order. -/
def malts (lits : List (List Char)) : Matcher :=
  fun cs => lits.flatMap (fun l => mlit true l cs)

/-- `,?` (used by the `MMM DD, YYYY` patterns): prefer consuming the comma. -/
def mcommaOpt : Matcher :=
  fun cs =>
    match cs with
    | ',' :: _ => [1, 0]
    | _ => [0]

/-- The month alternation
`(Jan|Feb|Mar|Apr|May|Jun|Jul|Aug|Sep|Oct|Nov|Dec|January|...|December)`
in the exact source order (abbreviations first, `May` listed twice). -/
def monthAltsFull : List (List Char) :=
  (["Jan", "Feb", "Mar", "Apr", "May", "Jun", "Jul", "Aug", "Sep", "Oct",
    "Nov", "Dec", "January", "February", "March", "April", "May", "June",
    "July", "August", "September", "October", "November", "December"]).map
    String.data

/-- The abbreviation-only alternation `(Jan|Feb|...|Dec)`. -/
def monthAltsAbbr : List (List Char) :=
  (["Jan", "Feb", "Mar", "Apr", "May", "Jun", "Jul", "Aug", "Sep", "Oct",
    "Nov", "Dec"]).map String.data

/-- The full-name alternation `(January|February|...|December)`. -/
def monthAltsLong : List (List Char) :=
  (["January", "February", "March", "April", "May", "June", "July", "August",
    "September", "October", "November", "December"]).map String.data

/-- Loose pattern 1 (and the identical pattern 2):
`(\d{1,2})[\/\-\.](\d{1,2})[\/\-\.](\d{4})`. -/
def patNum4 : Matcher :=
  mseq mdig12 (mseq (mclass isSepCh) (mseq mdig12 (mseq (mclass isSepCh) (mdigExact 4))))

/-- Loose pattern 3: `(\d{4})[\/\-\.](\d{1,2})[\/\-\.](\d{1,2})`. -/
def patYearFirst : Matcher :=
  mseq (mdigExact 4) (mseq (mclass isSepCh) (mseq mdig12 (mseq (mclass isSepCh) mdig12)))

/-- Loose pattern 4: `(\d{1,2})\s+(months)\s+(\d{4})` with the `i` flag. -/
def patDayMonth : Matcher :=
  mseq mdig12 (mseq mspaces (mseq (malts monthAltsFull) (mseq mspaces (mdigExact 4))))

/-- Loose pattern 5: `(months)\s+(\d{1,2}),?\s+(\d{4})` with the `i` flag. -/
def patMonthDay : Matcher :=
  mseq (malts monthAltsFull)
    (mseq mspaces (mseq mdig12 (mseq mcommaOpt (mseq mspaces (mdigExact 4)))))

/-- Loose pattern 6: `(\d{1,2})[\/\-\.](\d{1,2})[\/\-\.](\d{2})`. -/
def patNum2 : Matcher :=
  mseq mdig12 (mseq (mclass isSepCh) (mseq mdig12 (mseq (mclass isSepCh) (mdigExact 2))))

/-- Loose pattern 7: `(\d{1,2})(st|nd|rd|th)\s+(months)\s+(\d{4})` with `i`. -/
def patOrdinal : Matcher :=
  mseq mdig12 (mseq (malts (["st", "nd", "rd", "th"].map String.data))
    (mseq mspaces (mseq (malts monthAltsFull) (mseq mspaces (mdigExact 4)))))

/-- `DATE_PATTERNS` of the source, in order; the first two entries of the
source are textually identical regexes, so the matcher appears twice. -/
def DATE_PATTERNS : List Matcher :=
  [patNum4, patNum4, patYearFirst, patDayMonth, patMonthDay, patNum2, patOrdinal]

/-- One step of `String.prototype.matchAll`: find all non-overlapping matches
left to right, resuming after the end of each match (every pattern here
matches at least one character; `max n 1` guards progress regardless).
`fuel` is the remaining length bound. -/
def allMatchesFuel (p : Matcher) : Nat → List Char → List (List Char)
  | 0, _ => []
  | _, [] => []
  | fuel + 1, c :: rest =>
    match (p (c :: rest)).head? with
    | some n => (c :: rest).take n :: allMatchesFuel p fuel ((c :: rest).drop (max n 1))
    | none => allMatchesFuel p fuel rest

/-- `Array.from(text.matchAll(pattern))`, keeping the full match `match[0]`. -/
def allMatches (p : Matcher) (cs : List Char) : List (List Char) :=
  allMatchesFuel p cs.length cs

/-- Truthiness of `dateString.match(pattern)`: does the regex match anywhere
(including at the end-of-string position)? -/
def searchHit (p : Matcher) : List Char → Bool
  | [] => !(p []).isEmpty
  | c :: r => !(p (c :: r)).isEmpty || searchHit p r

/-- Days from civil date (proleptic Gregorian, epoch 1970-01-01); the standard
era-based algorithm, matching ECMA-262 `MakeDay`. -/
def daysFromCivil (y m d : Int) : Int :=
  let yy := if m ≤ 2 then y - 1 else y
  let era := Int.fdiv yy 400
  let yoe := yy - era * 400
  let mp := if 2 < m then m - 3 else m + 9
  let doy := Int.fdiv (153 * mp + 2) 5 + d - 1
  let doe := yoe * 365 + Int.fdiv yoe 4 - Int.fdiv yoe 100 + doy
  era * 146097 + doe - 719468

/-- Civil date from an epoch day count: `(year, month 1..12, day 1..31)`. -/
def civilFromDays (z : Int) : Int × Nat × Nat :=
  let z1 := z + 719468
  let era := Int.fdiv z1 146097
  let doe := (z1 - era * 146097).toNat
  let yoe := (doe - doe / 1460 + doe / 36524 - doe / 146096) / 365
  let doy := doe - (365 * yoe + yoe / 4 - yoe / 100)
  let mp := (5 * doy + 2) / 153
  let d := doy - (153 * mp + 2) / 5 + 1
  let m := if mp < 10 then mp + 3 else mp - 9
  (((yoe : Int) + era * 400) + (if m ≤ 2 then 1 else 0), m, d)

/-- `new Date(year, month, day)` (local midnight), as an epoch day count of the
local calendar date: two-digit years 0..99 map to 1900..1999, and out-of-range
month/day fields roll over (ECMA-262 `MakeDay`). The arguments arising from
`parseDate` are far inside the range where a JS `Date` is valid, so validity
is not modelled. -/
def jsMakeDay (y m d : Int) : Int :=
  let y1 := if 0 ≤ y && y ≤ 99 then y + 1900 else y
  let tm := y1 * 12 + m
  daysFromCivil (Int.fdiv tm 12) (Int.fmod tm 12 + 1) 1 + (d - 1)

/-- The decimal digit character for `n % 10`. -/
def digCh (n : Nat) : Char := Char.ofNat (48 + n % 10)

/-- A number zero-padded to 2 digits (months and days in `toISOString`). -/
def pad2L (n : Nat) : List Char := [digCh (n / 10), digCh n]

/-- A number zero-padded to 4 digits (years 0..9999 in `toISOString`). -/
def pad4L (n : Nat) : List Char :=
  [digCh (n / 1000), digCh (n / 100), digCh (n / 10), digCh n]

/-- A number zero-padded to 6 digits (expanded years in `toISOString`). -/
def pad6L (n : Nat) : List Char :=
  [digCh (n / 100000), digCh (n / 10000), digCh (n / 1000), digCh (n / 100),
   digCh (n / 10), digCh n]

/-- The date part of `toISOString` (ECMA-262 Date Time String Format): years
0..9999 print as `YYYY-MM-DD`, larger years in the expanded `+YYYYYY-MM-DD`
form (negative years, unreachable here, as `-YYYYYY-MM-DD`). -/
def isoDateStr : Int × Nat × Nat → String
  | (y, m, d) =>
    if 0 ≤ y && y ≤ 9999 then
      String.mk (pad4L y.toNat ++ '-' :: pad2L m ++ '-' :: pad2L d)
    else if 9999 < y then
      String.mk ('+' :: pad6L y.toNat ++ '-' :: pad2L m ++ '-' :: pad2L d)
    else
      String.mk ('-' :: pad6L (-y).toNat ++ '-' :: pad2L m ++ '-' :: pad2L d)

/-- `someDate.toISOString().split('T')[0]` for a `Date` built by
`new Date(y, m, d)` whose local calendar date is epoch day `days`:
`toISOString` serializes in UTC, so with a host timezone `tz` minutes east of
UTC the serialized day is `floor((days*1440 - tz) / 1440)`. -/
def isoOfLocalDays (tz days : Int) : String :=
  isoDateStr (civilFromDays (Int.fdiv (days * 1440 - tz) 1440))

/-- Split on the regex `[\s,]+` (used by `parseDate` for month-name formats):
maximal delimiter runs separate the pieces; a leading or trailing run yields an
empty piece, exactly as `String.prototype.split`. -/
def splitPlusAux (f : Char → Bool) : Bool → List Char → List Char → List (List Char)
  | skip, acc, [] => if skip then [[]] else [acc.reverse]
  | skip, acc, c :: r =>
    if f c then
      if skip then splitPlusAux f true [] r
      else acc.reverse :: splitPlusAux f true [] r
    else splitPlusAux f false (c :: acc) r

/-- `dateString.split(/[\s,]+/)`. -/
def splitSpaceComma (cs : List Char) : List (List Char) :=
  splitPlusAux (fun c => isJsSpace c || c = ',') false [] cs

/-- Split on the regex `[\/\-\.]` (no `+`): every delimiter character splits,
so consecutive delimiters yield empty pieces. -/
def splitEachAux (f : Char → Bool) : List Char → List Char → List (List Char)
  | acc, [] => [acc.reverse]
  | acc, c :: r =>
    if f c then acc.reverse :: splitEachAux f [] r else splitEachAux f (c :: acc) r

/-- `dateString.split(/[\/\-\.]/)`. -/
def splitSep (cs : List Char) : List (List Char) :=
  splitEachAux isSepCh [] cs

/-- The numeric value of a list of decimal digits. -/
def natOfDigits (ds : List Char) : Nat :=
  ds.foldl (fun a c => 10 * a + (c.toNat - 48)) 0

/-- `parseInt(s)`: skip leading whitespace, optional sign, then the leading
decimal digit run; `none` is JS `NaN`. (The hexadecimal auto-radix of
`parseInt` is unreachable for the strings split out of date candidates.) -/
def jsParseInt (cs : List Char) : Option Int :=
  let cs1 := cs.dropWhile isJsSpace
  let signAndRest : Int × List Char :=
    match cs1 with
    | '+' :: r => (1, r)
    | '-' :: r => (-1, r)
    | _ => (1, cs1)
  let ds := signAndRest.2.takeWhile isDigitCh
  if ds.isEmpty then none else some (signAndRest.1 * natOfDigits ds)

/-- The source's `monthMap` object: a case-sensitive name → 0-based month
lookup (`'May'` appears once in the object literal). -/
def monthMap : List (List Char × Nat) :=
  [("Jan".data, 0), ("January".data, 0), ("Feb".data, 1), ("February".data, 1),
   ("Mar".data, 2), ("March".data, 2), ("Apr".data, 3), ("April".data, 3),
   ("May".data, 4), ("Jun".data, 5), ("June".data, 5), ("Jul".data, 6),
   ("July".data, 6), ("Aug".data, 7), ("August".data, 7), ("Sep".data, 8),
   ("September".data, 8), ("Oct".data, 9), ("October".data, 9),
   ("Nov".data, 10), ("November".data, 10), ("Dec".data, 11),
   ("December".data, 11)]

/-- `monthMap[parts[i]]`: `none` is JS `undefined`. -/
def monthMapLookup (tok : List Char) : Option Nat :=
  (monthMap.find? (fun e => e.1 = tok)).map (·.2)

/-- Does `sub` occur (case-sensitively) as a contiguous run of `cs`? -/
def containsSub (sub : List Char) : List Char → Bool
  | [] => sub.isEmpty
  | c :: r => !(mlit false sub (c :: r)).isEmpty || containsSub sub r

/-- Does `sub` occur case-insensitively as a contiguous run of `cs`?
(Truthiness of a `match` against a case-insensitive literal alternation.) -/
def containsSubCI (sub : List Char) : List Char → Bool
  | [] => sub.isEmpty
  | c :: r => !(mlit true sub (c :: r)).isEmpty || containsSubCI sub r

/-- `format.includes(sub)` on the format tag strings. -/
def strIncludes (fmt sub : String) : Bool := containsSub sub.data fmt.data

/-- `format.startsWith(sub)` on the format tag strings. -/
def strStarts (fmt sub : String) : Bool := fmt.data.take sub.data.length = sub.data

/-- Truthiness of `dateString.match(/\d{4}/)`: four consecutive digits occur. -/
def hasDigitRun4 : List Char → Bool
  | [] => false
  | c :: r => !(mdigExact 4 (c :: r)).isEmpty || hasDigitRun4 r

/-- Truthiness of `dateString.match(/(Jan|Feb|...|Dec)/i)`: some month
abbreviation occurs case-insensitively. Every full month name contains its
three-letter abbreviation, so this also detects full names, which is why the
check realizes the spec's "recognized month name or abbreviation". -/
def hasMonthTokenCI (cs : List Char) : Bool :=
  monthAltsAbbr.any (fun a => containsSubCI a cs)

/-- `parseDate(dateString, format)` of the source: split the candidate,
resolve the fields per the format tag (`monthMap` is case-sensitive), expand
two-digit years (`< 50` → 2000s, otherwise 1900s), and build
`new Date(year, month, day)`; the result is the epoch day count of the
constructed local date, `none` for the `null` returns. -/
def parseDate (cs : List Char) (format : String) : Option Int :=
  if strIncludes format "MMM" then
    let parts := splitSpaceComma cs
    let dmy : Option Int × Option Nat × Option Int :=
      if strStarts format "DD" then
        (jsParseInt (parts.getD 0 []), monthMapLookup (parts.getD 1 []),
         jsParseInt (parts.getD 2 []))
      else
        (jsParseInt (parts.getD 1 []), monthMapLookup (parts.getD 0 []),
         jsParseInt (parts.getD 2 []))
    match dmy with
    | (some day, some month, some year) => some (jsMakeDay year month day)
    | _ => none
  else
    let parts := splitSep cs
    let dmy : Option Int × Option Int × Option Int :=
      if strStarts format "YYYY" then
        (jsParseInt (parts.getD 2 []), (jsParseInt (parts.getD 1 [])).map (· - 1),
         jsParseInt (parts.getD 0 []))
      else
        (jsParseInt (parts.getD 0 []), (jsParseInt (parts.getD 1 [])).map (· - 1),
         (jsParseInt (parts.getD 2 [])).map
           (fun y => if y < 100 then y + (if y < 50 then 2000 else 1900) else y))
    match dmy with
    | (some day, some month, some year) => some (jsMakeDay year month day)
    | _ => none

/-- Exact rational addition in a kernel-computable form (`Rat.add` itself is
irreducible); `qadd_eq` below proves it equal to `+`. -/
def qadd (a b : ℚ) : ℚ := mkRat (a.num * b.den + b.num * a.den) (a.den * b.den)

/-- Exact rational subtraction in a kernel-computable form; `qsub_eq` below
proves it equal to `-`. -/
def qsub (a b : ℚ) : ℚ := mkRat (a.num * b.den - b.num * a.den) (a.den * b.den)

/-- Exact division of a rational by a positive natural number in a
kernel-computable form; `qdivNat_eq` below proves it equal to `/`. -/
def qdivNat (a : ℚ) (k : Nat) : ℚ := mkRat a.num (a.den * k)

/-- `calculateDateConfidence(dateString, parsedDate)`: `cy` is the ambient
`new Date().getFullYear()` and `py` is `parsedDate.getFullYear()` (the year of
the constructed local date, after field rollover). The numeric literals of the
source appear as exact rationals (`mkRat 8 10` is `0.8`, and so on); the
sub-ulp IEEE rounding of the source's float arithmetic is abstracted to the
exact arithmetic the spec describes. -/
def calculateDateConfidence (cy : Int) (cs : List Char) (py : Int) : ℚ :=
  let c0 : ℚ := mkRat 8 10
  let yearDiff := (cy - py).natAbs
  let c1 := if 50 < yearDiff then qsub c0 (mkRat 3 10) else c0
  let c2 := if 100 < yearDiff then qsub c1 (mkRat 4 10) else c1
  let c3 := if cs.contains '/' || cs.contains '-' then qadd c2 (mkRat 1 10) else c2
  let c4 := if hasDigitRun4 cs then qadd c3 (mkRat 1 10) else c3
  let c5 := if hasMonthTokenCI cs then qadd c4 (mkRat 1 10) else c4
  min (max c5 0) 1

/-- The `DateInformation` record of the source (`Date`, `Format` and
`ExtractedFromText` are `string | null`). -/
structure DateInformation where
  Date : Option String
  Format : Option String
  Confidence : ℚ
  ExtractedFromText : Option String
deriving DecidableEq, Repr

/-- `DATE_FORMAT_MAP`: the ordered strict per-format regexes (only the three
month-name entries carry the `i` flag; `Object.entries` preserves this
insertion order). -/
def DATE_FORMAT_MAP : List (String × Matcher) :=
  [("DD/MM/YYYY",
    mseq mdig12 (mseq (mclass (· = '/')) (mseq mdig12 (mseq (mclass (· = '/')) (mdigExact 4))))),
   ("DD-MM-YYYY",
    mseq mdig12 (mseq (mclass (· = '-')) (mseq mdig12 (mseq (mclass (· = '-')) (mdigExact 4))))),
   ("DD.MM.YYYY",
    mseq mdig12 (mseq (mclass (· = '.')) (mseq mdig12 (mseq (mclass (· = '.')) (mdigExact 4))))),
   ("YYYY-MM-DD",
    mseq (mdigExact 4) (mseq (mclass (· = '-')) (mseq mdig12 (mseq (mclass (· = '-')) mdig12)))),
   ("DD MMM YYYY", mseq mdig12 (mseq mspaces (malts monthAltsAbbr))),
   ("DD MMMM YYYY", mseq mdig12 (mseq mspaces (malts monthAltsLong))),
   ("MMM DD, YYYY",
    mseq (malts monthAltsAbbr)
      (mseq mspaces (mseq mdig12 (mseq mcommaOpt (mseq mspaces (mdigExact 4))))))]

/-- The strict-format loop of `parseAndValidateDate`: the first map entry whose
regex matches somewhere in the candidate *and* whose `parseDate` succeeds wins;
an entry whose regex matches but whose parse fails falls through to later
entries. -/
def strictFormatPass (cy tz : Int) (cs : List Char) :
    List (String × Matcher) → Option DateInformation
  | [] => none
  | (fmt, pat) :: rest =>
    if searchHit pat cs then
      match parseDate cs fmt with
      | some days =>
        some { Date := some (isoOfLocalDays tz days),
               Format := some fmt,
               Confidence := calculateDateConfidence cy cs (civilFromDays days).1,
               ExtractedFromText := some (String.mk cs) }
      | none => strictFormatPass cy tz cs rest
    else strictFormatPass cy tz cs rest

/-- `parseAndValidateDate(dateString)`; `fb` models the host's
`new Date(dateString)` fallback (`none` = Invalid Date → the `null` return).
The fallback result carries the fixed confidence `0.6` and format tag
`'Auto-detected'`. Nothing in the body can throw, so the `try/catch` is
inert. -/
def parseAndValidateDate (cy tz : Int) (fb : String → Option Int)
    (cs : List Char) : Option DateInformation :=
  if cs.isEmpty then none
  else
    match strictFormatPass cy tz cs DATE_FORMAT_MAP with
    | some d => some d
    | none =>
      match fb (String.mk cs) with
      | some utcDays =>
        some { Date := some (isoDateStr (civilFromDays utcDays)),
               Format := some "Auto-detected",
               Confidence := mkRat 6 10,
               ExtractedFromText := some (String.mk cs) }
      | none => none

/-- `text.trim()`. -/
def jsTrim (cs : List Char) : List Char :=
  ((cs.dropWhile isJsSpace).reverse.dropWhile isJsSpace).reverse

/-- One candidate step of the scan loop in `extractDateFromText`: keep the
parsed candidate only when its confidence strictly exceeds the running
`highestConfidence` (which starts at 0), spreading in the matched text. -/
def scanStep (cy tz : Int) (fb : String → Option Int)
    (acc : Option DateInformation × ℚ) (m : List Char) :
    Option DateInformation × ℚ :=
  match parseAndValidateDate cy tz fb m with
  | some d =>
    if acc.2 < d.Confidence then
      (some { d with ExtractedFromText := some (String.mk m) }, d.Confidence)
    else acc
  | none => acc

/-- `extractDateFromText(text)`: trim, scan every pattern's matches in order,
and keep the candidate with the strictly highest confidence. -/
def extractDateFromText (cy tz : Int) (fb : String → Option Int)
    (text : String) : Option DateInformation :=
  if text = "" then none
  else
    (DATE_PATTERNS.foldl
      (fun acc p => (allMatches p (jsTrim text.data)).foldl (scanStep cy tz fb) acc)
      (none, 0)).1

/-- Truthiness of `d.Date` (a `string | null` field): non-null and nonempty. -/
def dateTruthy (d : DateInformation) : Bool :=
  match d.Date with
  | none => false
  | some s => s ≠ ""

/-- Days in a month of the proleptic Gregorian calendar. -/
def daysInMonth (y : Int) (m : Nat) : Nat :=
  if m = 2 then (if y % 4 = 0 && (y % 100 ≠ 0 || y % 400 = 0) then 29 else 28)
  else if m = 4 || m = 6 || m = 9 || m = 11 then 30 else 31

/-- `new Date(s).getTime()` for the ISO `YYYY-MM-DD` strings the extractor
produces: an exact-shape valid ISO date parses as UTC midnight (ECMA-262 Date
Time String Format) to `days * 86400000` ms; anything else is modelled as
`NaN` (`none`) — out-of-range fields make the ECMA parse invalid. -/
def jsDateMsOfString (s : String) : Option Int :=
  match s.data with
  | [y3, y2, y1, y0, '-', m1, m0, '-', d1, d0] =>
    if ([y3, y2, y1, y0, m1, m0, d1, d0].all isDigitCh) then
      let y : Int := natOfDigits [y3, y2, y1, y0]
      let m := natOfDigits [m1, m0]
      let d := natOfDigits [d1, d0]
      if 1 ≤ m && m ≤ 12 && 1 ≤ d && d ≤ daysInMonth y m then
        some (daysFromCivil y m d * 86400000)
      else none
    else none
  | _ => none

/-- `Math.min(...values)` over a nonempty collection. -/
def listMin : List Int → Int
  | [] => 0
  | t :: r => r.foldl min t

/-- `Math.max(...values)` over a nonempty collection. -/
def listMax : List Int → Int
  | [] => 0
  | t :: r => r.foldl max t

/-- `analyzeDateConsistency(stampDate, signatureDate, documentDate)`. An
unparseable `Date` string gives JS `NaN`; `NaN` propagates through
`Math.min`/`Math.max` and the division, `NaN <= 30` is false, so any `NaN`
yields `'Inconsistent'` — modelled by the `Option.isSome` split. -/
def analyzeDateConsistency (a b c : Option DateInformation) : String :=
  let dates := ([a, b, c].filterMap id).filter dateTruthy
  if dates.length < 2 then "Unknown"
  else
    let vals := dates.map (fun d => jsDateMsOfString (d.Date.getD ""))
    if vals.all Option.isSome then
      let ts := vals.filterMap id
      if qdivNat (mkRat (listMax ts - listMin ts) 1) 86400000 ≤ mkRat 30 1 then
        "Consistent"
      else "Inconsistent"
    else "Inconsistent"

/-- Modelled from the spec: the host legacy parser behind the
`new Date(dateString)` fallback is implementation-defined and not part of the
repository (spec §9 calls its behavior ambiguous and likely unintentional).
This instantiation models hosts — V8 among them — that reject the all-numeric
day-first candidates fed to the fallback in the concrete inputs used below
("16/03/24", "13/14/99", "22-03-20", "15/03/19"): V8 reads such strings
month-first and yields Invalid Date because the month field exceeds 12. -/
def fbReject : String → Option Int := fun _ => none

/-- All loose-pattern matches of the trimmed text across the ordered pattern
table, in priority order and leftmost-first within each pattern: the candidate
pool that `extractDateFromText` scans. -/
def allCandidates (text : String) : List (List Char) :=
  DATE_PATTERNS.flatMap (fun p => allMatches p (jsTrim text.data))

/-- The successfully parsed candidates in scan order, each carrying its matched
text, exactly as the scan loop builds them. -/
def scoredCandidates (cy tz : Int) (fb : String → Option Int) (text : String) :
    List DateInformation :=
  (allCandidates text).filterMap (fun m =>
    (parseAndValidateDate cy tz fb m).map
      (fun d => { d with ExtractedFromText := some (String.mk m) }))

/-- The highest confidence in a candidate list (0 when empty). -/
def maxConf : List DateInformation → ℚ
  | [] => 0
  | d :: t => max d.Confidence (maxConf t)

/-- The spec's selection rule, stated in its own words: the first-found
candidate attaining the strictly highest confidence (pattern priority order,
then leftmost position; ties keep the first). -/
def bestOf (L : List DateInformation) : Option DateInformation :=
  L.find? (fun d => maxConf L ≤ d.Confidence)

/-- The selection step of the scan loop, abstracted over already-parsed
candidates. -/
def selStep (acc : Option DateInformation × ℚ) (d : DateInformation) :
    Option DateInformation × ℚ :=
  if acc.2 < d.Confidence then (some d, d.Confidence) else acc

theorem qadd_eq (a b : ℚ) : qadd a b = a + b := by
  conv_rhs => rw [← Rat.num_div_den a, ← Rat.num_div_den b]
  rw [qadd, Rat.mkRat_eq_divInt, Rat.divInt_eq_div]
  have ha : ((a.den : ℚ)) ≠ 0 := Nat.cast_ne_zero.mpr a.den_nz
  have hb : ((b.den : ℚ)) ≠ 0 := Nat.cast_ne_zero.mpr b.den_nz
  push_cast
  field_simp
  try ring

theorem qsub_eq (a b : ℚ) : qsub a b = a - b := by
  conv_rhs => rw [← Rat.num_div_den a, ← Rat.num_div_den b]
  rw [qsub, Rat.mkRat_eq_divInt, Rat.divInt_eq_div]
  have ha : ((a.den : ℚ)) ≠ 0 := Nat.cast_ne_zero.mpr a.den_nz
  have hb : ((b.den : ℚ)) ≠ 0 := Nat.cast_ne_zero.mpr b.den_nz
  push_cast
  field_simp
  try ring

theorem qdivNat_eq (a : ℚ) (k : Nat) (hk : k ≠ 0) : qdivNat a k = a / k := by
  conv_rhs => rw [← Rat.num_div_den a]
  rw [qdivNat, Rat.mkRat_eq_divInt, Rat.divInt_eq_div]
  have ha : ((a.den : ℚ)) ≠ 0 := Nat.cast_ne_zero.mpr a.den_nz
  have hk2 : ((k : ℚ)) ≠ 0 := Nat.cast_ne_zero.mpr hk
  push_cast
  field_simp

theorem mkRatTenths (n : Int) : mkRat n 10 = (n : ℚ) / 10 := by
  rw [Rat.mkRat_eq_divInt, Rat.divInt_eq_div]
  norm_num

theorem maxConf_cons (d : DateInformation) (t : List DateInformation) :
    maxConf (d :: t) = max d.Confidence (maxConf t) := rfl

theorem bestOf_cons (d : DateInformation) (t : List DateInformation) :
    bestOf (d :: t) = if maxConf t ≤ d.Confidence then some d else bestOf t := by
  by_cases h : maxConf t ≤ d.Confidence
  · rw [if_pos h]
    apply List.find?_cons_of_pos
    simp only [decide_eq_true_eq, maxConf_cons]
    exact max_le le_rfl h
  · rw [if_neg h, bestOf, List.find?_cons_of_neg, bestOf, maxConf_cons,
      max_eq_right (le_of_not_le h)]
    simp only [decide_eq_true_eq, maxConf_cons, max_eq_right (le_of_not_le h)]
    exact h

theorem maxConf_ge_mem (L : List DateInformation) (d : DateInformation)
    (h : d ∈ L) : d.Confidence ≤ maxConf L := by
  induction L with
  | nil => cases h
  | cons a t ih =>
    rw [maxConf_cons]
    rcases List.mem_cons.mp h with h1 | h1
    · rw [h1]; exact le_max_left _ _
    · exact le_trans (ih h1) (le_max_right _ _)

theorem bestOf_mem (L : List DateInformation) (b : DateInformation)
    (h : bestOf L = some b) : b ∈ L :=
  List.mem_of_find?_eq_some h

theorem bestOf_conf (L : List DateInformation) (b : DateInformation)
    (h : bestOf L = some b) : maxConf L ≤ b.Confidence := by
  have := List.find?_some h
  simpa using this

theorem bestOf_isSome (L : List DateInformation) (hne : L ≠ [])
    (hpos : ∀ d ∈ L, 0 < d.Confidence) : ∃ b, bestOf L = some b := by
  induction L with
  | nil => exact absurd rfl hne
  | cons d t ih =>
    rw [bestOf_cons]
    by_cases h : maxConf t ≤ d.Confidence
    · rw [if_pos h]; exact ⟨d, rfl⟩
    · rw [if_neg h]
      apply ih
      · intro ht
        rw [ht] at h
        exact h (le_of_lt (hpos d (List.mem_cons_self d t)))
      · intro x hx; exact hpos x (List.mem_cons_of_mem d hx)

theorem selFold_some (L : List DateInformation) :
    ∀ (r : DateInformation), (∀ d ∈ L, 0 < d.Confidence) → 0 < r.Confidence →
      L.foldl selStep (some r, r.Confidence) =
        if maxConf L ≤ r.Confidence then (some r, r.Confidence)
        else (bestOf L, maxConf L) := by
  induction L with
  | nil =>
    intro r _ hr
    rw [List.foldl_nil, if_pos]
    show maxConf [] ≤ r.Confidence
    exact le_of_lt hr
  | cons d t ih =>
    intro r hL hr
    have hd : 0 < d.Confidence := hL d (List.mem_cons_self d t)
    have ht : ∀ x ∈ t, 0 < x.Confidence :=
      fun x hx => hL x (List.mem_cons_of_mem d hx)
    rw [List.foldl_cons]
    by_cases hcmp : r.Confidence < d.Confidence
    · have hstep : selStep (some r, r.Confidence) d = (some d, d.Confidence) := by
        unfold selStep; rw [if_pos hcmp]
      rw [hstep, ih d ht hd, maxConf_cons, bestOf_cons]
      by_cases h1 : maxConf t ≤ d.Confidence
      · rw [if_pos h1, if_neg (not_le.mpr (lt_of_lt_of_le hcmp (le_max_left _ _))),
          if_pos h1, max_eq_left h1]
      · rw [if_neg h1, if_neg (not_le.mpr (lt_of_lt_of_le hcmp (le_max_left _ _))),
          if_neg h1, max_eq_right (le_of_not_le h1)]
    · have hstep : selStep (some r, r.Confidence) d = (some r, r.Confidence) := by
        unfold selStep; rw [if_neg hcmp]
      rw [hstep, ih r ht hr, maxConf_cons, bestOf_cons]
      have hdr : d.Confidence ≤ r.Confidence := le_of_not_lt hcmp
      by_cases h1 : maxConf t ≤ r.Confidence
      · rw [if_pos h1, if_pos (max_le hdr h1)]
      · have h2 : ¬ max d.Confidence (maxConf t) ≤ r.Confidence := by
          intro hh; exact h1 (le_trans (le_max_right _ _) hh)
        have h3 : ¬ maxConf t ≤ d.Confidence := by
          intro hh; exact h1 (le_trans hh hdr)
        rw [if_neg h1, if_neg h2, if_neg h3, max_eq_right (le_of_not_le h3)]

theorem selFold_main (L : List DateInformation)
    (hL : ∀ d ∈ L, 0 < d.Confidence) :
    L.foldl selStep ((none : Option DateInformation), (0 : ℚ)) =
      (bestOf L, maxConf L) := by
  cases L with
  | nil => rfl
  | cons d t =>
    have hd : 0 < d.Confidence := hL d (List.mem_cons_self d t)
    have ht : ∀ x ∈ t, 0 < x.Confidence :=
      fun x hx => hL x (List.mem_cons_of_mem d hx)
    have hstep : selStep (none, (0 : ℚ)) d = (some d, d.Confidence) := by
      unfold selStep; rw [if_pos hd]
    rw [List.foldl_cons, hstep, selFold_some t d ht hd, maxConf_cons, bestOf_cons]
    by_cases h2 : maxConf t ≤ d.Confidence
    · rw [if_pos h2, if_pos h2, max_eq_left h2]
    · rw [if_neg h2, if_neg h2, max_eq_right (le_of_not_le h2)]

theorem clamp_le_one (c : ℚ) : min (max c 0) 1 ≤ 1 := min_le_right _ _

theorem clamp_nonneg (c : ℚ) : 0 ≤ min (max c 0) 1 :=
  le_min (le_max_right _ _) (by norm_num)

theorem calc_conf_lb (cy : Int) (cs : List Char) (py : Int) :
    mkRat 1 10 ≤ calculateDateConfidence cy cs py := by
  have h1 : (mkRat 1 10 : ℚ) = 1 / 10 := by rw [mkRatTenths]; norm_num
  unfold calculateDateConfidence
  simp only [qadd_eq, qsub_eq, mkRatTenths, h1]
  apply le_min
  · apply le_trans _ (le_max_left _ _)
    split_ifs <;> norm_num
  · norm_num

theorem calc_conf_pos (cy : Int) (cs : List Char) (py : Int) :
    0 < calculateDateConfidence cy cs py := by
  apply lt_of_lt_of_le _ (calc_conf_lb cy cs py)
  rw [mkRatTenths]; norm_num

theorem calc_conf_le_one (cy : Int) (cs : List Char) (py : Int) :
    calculateDateConfidence cy cs py ≤ 1 := by
  unfold calculateDateConfidence
  exact clamp_le_one _

theorem calc_conf_nonneg (cy : Int) (cs : List Char) (py : Int) :
    0 ≤ calculateDateConfidence cy cs py := by
  unfold calculateDateConfidence
  exact clamp_nonneg _

theorem fbConf_pos : (0 : ℚ) < mkRat 6 10 := by rw [mkRatTenths]; norm_num

theorem fbConf_le_one : (mkRat 6 10 : ℚ) ≤ 1 := by rw [mkRatTenths]; norm_num

/-- Anatomy of a successful strict-format parse: the returned record is built
from the first matching-and-parsing map entry. -/
theorem strictFormatPass_shape (cy tz : Int) (cs : List Char)
    (l : List (String × Matcher)) (d : DateInformation)
    (h : strictFormatPass cy tz cs l = some d) :
    ∃ fmt days, fmt ∈ l.map Prod.fst ∧ parseDate cs fmt = some days ∧
      d = { Date := some (isoOfLocalDays tz days), Format := some fmt,
            Confidence := calculateDateConfidence cy cs (civilFromDays days).1,
            ExtractedFromText := some (String.mk cs) } := by
  induction l with
  | nil => exact absurd h (by simp [strictFormatPass])
  | cons e rest ih =>
    obtain ⟨fmt, pat⟩ := e
    rw [strictFormatPass] at h
    by_cases hs : searchHit pat cs
    · rw [if_pos hs] at h
      cases hp : parseDate cs fmt with
      | some days =>
        rw [hp] at h
        refine ⟨fmt, days, by simp, hp, ?_⟩
        exact (Option.some_inj.mp h).symm
      | none =>
        rw [hp] at h
        obtain ⟨f2, d2, hmem, hpd, hd⟩ := ih h
        exact ⟨f2, d2, by simp [hmem], hpd, hd⟩
    · rw [if_neg hs] at h
      obtain ⟨f2, d2, hmem, hpd, hd⟩ := ih h
      exact ⟨f2, d2, by simp [hmem], hpd, hd⟩

/-- Anatomy of a successful `parseAndValidateDate`: either a strict-format
result or the host-fallback result. -/
theorem parse_shape (cy tz : Int) (fb : String → Option Int) (cs : List Char)
    (d : DateInformation) (h : parseAndValidateDate cy tz fb cs = some d) :
    (∃ fmt days, fmt ∈ DATE_FORMAT_MAP.map Prod.fst ∧ parseDate cs fmt = some days ∧
       d = { Date := some (isoOfLocalDays tz days), Format := some fmt,
             Confidence := calculateDateConfidence cy cs (civilFromDays days).1,
             ExtractedFromText := some (String.mk cs) })
    ∨ (∃ u, fb (String.mk cs) = some u ∧
       d = { Date := some (isoDateStr (civilFromDays u)),
             Format := some "Auto-detected", Confidence := mkRat 6 10,
             ExtractedFromText := some (String.mk cs) }) := by
  rw [parseAndValidateDate] at h
  by_cases he : cs.isEmpty
  · rw [if_pos he] at h; cases h
  · rw [if_neg he] at h
    cases hs : strictFormatPass cy tz cs DATE_FORMAT_MAP with
    | some d2 =>
      rw [hs] at h
      obtain ⟨fmt, days, hmem, hpd, hd⟩ := strictFormatPass_shape cy tz cs _ d2 hs
      exact Or.inl ⟨fmt, days, hmem, hpd, by rw [← Option.some_inj.mp h, hd]⟩
    | none =>
      rw [hs] at h
      cases hf : fb (String.mk cs) with
      | some u =>
        rw [hf] at h
        exact Or.inr ⟨u, rfl, (Option.some_inj.mp h).symm⟩
      | none => rw [hf] at h; cases h

theorem parse_conf_pos (cy tz : Int) (fb : String → Option Int) (cs : List Char)
    (d : DateInformation) (h : parseAndValidateDate cy tz fb cs = some d) :
    0 < d.Confidence := by
  rcases parse_shape cy tz fb cs d h with ⟨fmt, days, _, _, hd⟩ | ⟨u, _, hd⟩
  · rw [hd]; exact calc_conf_pos _ _ _
  · rw [hd]; exact fbConf_pos

theorem parse_conf_le_one (cy tz : Int) (fb : String → Option Int) (cs : List Char)
    (d : DateInformation) (h : parseAndValidateDate cy tz fb cs = some d) :
    d.Confidence ≤ 1 := by
  rcases parse_shape cy tz fb cs d h with ⟨fmt, days, _, _, hd⟩ | ⟨u, _, hd⟩
  · rw [hd]; exact calc_conf_le_one _ _ _
  · rw [hd]; exact fbConf_le_one

theorem scanStep_none (cy tz : Int) (fb : String → Option Int)
    (acc : Option DateInformation × ℚ) (m : List Char)
    (h : parseAndValidateDate cy tz fb m = none) :
    scanStep cy tz fb acc m = acc := by
  unfold scanStep; rw [h]

theorem scanStep_some (cy tz : Int) (fb : String → Option Int)
    (acc : Option DateInformation × ℚ) (m : List Char) (d : DateInformation)
    (h : parseAndValidateDate cy tz fb m = some d) :
    scanStep cy tz fb acc m =
      selStep acc { d with ExtractedFromText := some (String.mk m) } := by
  unfold scanStep selStep; rw [h]

theorem foldl_inner_flatMap {α β γ : Type} (g : γ → β → γ) (f : α → List β) :
    ∀ (ps : List α) (acc : γ),
      ps.foldl (fun a p => (f p).foldl g a) acc = (ps.flatMap f).foldl g acc := by
  intro ps
  induction ps with
  | nil => intro acc; rfl
  | cons p rest ih =>
    intro acc
    rw [List.flatMap_cons, List.foldl_append, List.foldl_cons]
    exact ih _

theorem foldl_scan_filterMap (cy tz : Int) (fb : String → Option Int) :
    ∀ (ms : List (List Char)) (acc : Option DateInformation × ℚ),
      ms.foldl (scanStep cy tz fb) acc =
        (ms.filterMap (fun m => (parseAndValidateDate cy tz fb m).map
          (fun d => { d with ExtractedFromText := some (String.mk m) }))).foldl
          selStep acc := by
  intro ms
  induction ms with
  | nil => intro acc; rfl
  | cons m rest ih =>
    intro acc
    rw [List.foldl_cons, List.filterMap_cons]
    cases hp : parseAndValidateDate cy tz fb m with
    | none =>
      rw [scanStep_none cy tz fb acc m hp]
      simp only [Option.map_none']
      exact ih _
    | some d =>
      rw [scanStep_some cy tz fb acc m d hp]
      simp only [Option.map_some']
      rw [List.foldl_cons]
      exact ih _

theorem scored_pos (cy tz : Int) (fb : String → Option Int) (t : String) :
    ∀ d ∈ scoredCandidates cy tz fb t, 0 < d.Confidence := by
  intro d hd
  obtain ⟨m, hm, hmap⟩ := List.mem_filterMap.mp hd
  cases hp : parseAndValidateDate cy tz fb m with
  | none => rw [hp] at hmap; cases hmap
  | some d0 =>
    rw [hp] at hmap
    have : d = { d0 with ExtractedFromText := some (String.mk m) } :=
      (Option.some_inj.mp hmap).symm
    rw [this]
    exact parse_conf_pos cy tz fb m d0 hp

/-- The central description of the scan loop: `extractDateFromText` returns
exactly the first-found candidate of strictly highest confidence among all
parsed matches of all patterns. -/
theorem extract_eq_bestOf (cy tz : Int) (fb : String → Option Int) (t : String) :
    extractDateFromText cy tz fb t = bestOf (scoredCandidates cy tz fb t) := by
  by_cases h : t = ""
  · subst h
    have hc : allCandidates "" = [] := by decide
    have hs : scoredCandidates cy tz fb "" = [] := by
      rw [scoredCandidates, hc]; rfl
    rw [hs, extractDateFromText, if_pos rfl]
    rfl
  · rw [extractDateFromText, if_neg h,
      foldl_inner_flatMap (scanStep cy tz fb)
        (fun p => allMatches p (jsTrim t.data)) DATE_PATTERNS (none, 0),
      foldl_scan_filterMap cy tz fb]
    change (List.foldl selStep (none, 0) (scoredCandidates cy tz fb t)).1 = _
    rw [selFold_main _ (scored_pos cy tz fb t)]

theorem scored_mem_shape (cy tz : Int) (fb : String → Option Int) (t : String)
    (d : DateInformation) (hd : d ∈ scoredCandidates cy tz fb t) :
    ∃ m d0, m ∈ allCandidates t ∧ parseAndValidateDate cy tz fb m = some d0 ∧
      d = { d0 with ExtractedFromText := some (String.mk m) } := by
  obtain ⟨m, hm, hmap⟩ := List.mem_filterMap.mp hd
  cases hp : parseAndValidateDate cy tz fb m with
  | none => rw [hp] at hmap; cases hmap
  | some d0 =>
    exact ⟨m, d0, hm, hp, by rw [hp] at hmap; exact (Option.some_inj.mp hmap).symm⟩

theorem parse_fields (cy tz : Int) (fb : String → Option Int) (cs : List Char)
    (d : DateInformation) (h : parseAndValidateDate cy tz fb cs = some d) :
    d.Date.isSome = true ∧ d.Format.isSome = true ∧
      d.ExtractedFromText.isSome = true := by
  rcases parse_shape cy tz fb cs d h with ⟨fmt, days, _, _, hd⟩ | ⟨u, _, hd⟩ <;>
    rw [hd] <;> exact ⟨rfl, rfl, rfl⟩

theorem parse_auto_conf (cy tz : Int) (fb : String → Option Int) (cs : List Char)
    (d : DateInformation) (h : parseAndValidateDate cy tz fb cs = some d)
    (hfmt : d.Format = some "Auto-detected") : d.Confidence = mkRat 6 10 := by
  rcases parse_shape cy tz fb cs d h with ⟨fmt, days, hmem, _, hd⟩ | ⟨u, _, hd⟩
  · exfalso
    rw [hd] at hfmt
    have hf : fmt = "Auto-detected" := Option.some_inj.mp hfmt
    rw [hf] at hmem
    revert hmem
    decide
  · rw [hd]

theorem parse_date_iso (cy tz : Int) (fb : String → Option Int) (cs : List Char)
    (d : DateInformation) (h : parseAndValidateDate cy tz fb cs = some d) :
    ∃ k, d.Date = some (isoDateStr (civilFromDays k)) := by
  rcases parse_shape cy tz fb cs d h with ⟨fmt, days, _, _, hd⟩ | ⟨u, _, hd⟩
  · exact ⟨Int.fdiv (days * 1440 - tz) 1440, by rw [hd]; rfl⟩
  · exact ⟨u, by rw [hd]⟩

/-- The `YYYY-MM-DD` shape: exactly ten characters, two groups of two digits
and one of four, separated by dashes. -/
def isYMDShape (s : String) : Bool :=
  match s.data with
  | [a, b, c, d, '-', e, f, '-', g, h] => ([a, b, c, d, e, f, g, h]).all isDigitCh
  | _ => false

theorem digCh_digit (n : Nat) : isDigitCh (digCh n) = true := by
  unfold digCh isDigitCh
  have h : n % 10 < 10 := Nat.mod_lt _ (by norm_num)
  revert h
  generalize n % 10 = k
  intro h
  interval_cases k <;> decide

theorem isoDateStr_shape (y : Int) (m d : Nat) (h0 : 0 ≤ y) (h1 : y ≤ 9999) :
    isYMDShape (isoDateStr (y, m, d)) = true := by
  have hc : (decide (0 ≤ y) && decide (y ≤ 9999)) = true := by simp [h0, h1]
  rw [isoDateStr]
  rw [if_pos hc]
  simp only [isYMDShape, pad4L, pad2L, List.cons_append, List.nil_append,
    List.all_cons, List.all_nil, digCh_digit, Bool.and_self, Bool.and_true]

theorem clamp_congr (a b : ℚ) (h : a = b) : min (max a 0) 1 = min (max b 0) 1 := by
  rw [h]

/-- The confidence computation equals the spec's order-independent clamped
sum of base score, age penalties and bonuses. -/
theorem calc_conf_formula (cy : Int) (cs : List Char) (py : Int) :
    calculateDateConfidence cy cs py =
      min (max ((0.8 : ℚ)
        - (if 50 < (cy - py).natAbs then (0.3 : ℚ) else 0)
        - (if 100 < (cy - py).natAbs then (0.4 : ℚ) else 0)
        + (if cs.contains '/' || cs.contains '-' then (0.1 : ℚ) else 0)
        + (if hasDigitRun4 cs then (0.1 : ℚ) else 0)
        + (if hasMonthTokenCI cs then (0.1 : ℚ) else 0)) 0) 1 := by
  unfold calculateDateConfidence
  simp only [qadd_eq, qsub_eq, mkRatTenths]
  apply clamp_congr
  split_ifs <;> norm_num

theorem strictFormatPass_cons_miss (cy tz : Int) (cs : List Char) (fmt : String)
    (pat : Matcher) (rest : List (String × Matcher)) (h : searchHit pat cs = false) :
    strictFormatPass cy tz cs ((fmt, pat) :: rest) = strictFormatPass cy tz cs rest := by
  rw [strictFormatPass, h]
  rfl

theorem strictFormatPass_cons_hit (cy tz : Int) (cs : List Char) (fmt : String)
    (pat : Matcher) (rest : List (String × Matcher)) (days : Int)
    (h : searchHit pat cs = true) (hp : parseDate cs fmt = some days) :
    strictFormatPass cy tz cs ((fmt, pat) :: rest) =
      some { Date := some (isoOfLocalDays tz days), Format := some fmt,
             Confidence := calculateDateConfidence cy cs (civilFromDays days).1,
             ExtractedFromText := some (String.mk cs) } := by
  rw [strictFormatPass, h, hp]
  rfl

theorem strictFormatPass_none (cy tz : Int) (cs : List Char)
    (l : List (String × Matcher)) (h : ∀ e ∈ l, searchHit e.2 cs = false) :
    strictFormatPass cy tz cs l = none := by
  induction l with
  | nil => rfl
  | cons e rest ih =>
    obtain ⟨fmt, pat⟩ := e
    rw [strictFormatPass_cons_miss cy tz cs fmt pat rest
      (h (fmt, pat) (List.mem_cons_self _ _))]
    exact ih (fun x hx => h x (List.mem_cons_of_mem _ hx))

/-- C1: for every input text, `extractDateFromText` collects all matches of
every pattern of the ordered table (`scoredCandidates` is built from ALL
matches of all patterns, parsed in priority-then-leftmost order) and returns
the first-found candidate of strictly highest confidence: the result equals
`bestOf`, and any returned candidate sits in the scanned list, bounds every
candidate's confidence from above, and strictly beats every candidate found
before it. -/
theorem c1_all_matches_best_selection (cy tz : Int) (fb : String → Option Int)
    (t : String) :
    extractDateFromText cy tz fb t = bestOf (scoredCandidates cy tz fb t) ∧
    (∀ b, extractDateFromText cy tz fb t = some b →
      ∃ pre post, scoredCandidates cy tz fb t = pre ++ b :: post ∧
        (∀ d ∈ scoredCandidates cy tz fb t, d.Confidence ≤ b.Confidence) ∧
        (∀ d ∈ pre, d.Confidence < b.Confidence)) := by
  refine ⟨extract_eq_bestOf cy tz fb t, ?_⟩
  intro b hb
  rw [extract_eq_bestOf cy tz fb t] at hb
  have hmax := bestOf_conf _ _ hb
  obtain ⟨hpred, as, bs, heq, hnot⟩ := List.find?_eq_some.mp hb
  refine ⟨as, bs, heq, ?_, ?_⟩
  · intro d hd
    exact le_trans (maxConf_ge_mem _ _ hd) hmax
  · intro d hd
    have hlt := hnot d hd
    simp only [Bool.not_eq_true', decide_eq_false_iff_not, not_le] at hlt
    exact lt_of_lt_of_le hlt hmax

/-- Witness for C1 at a concrete input: the scan of "22-03-2024" returns the
strict `DD-MM-YYYY` candidate, which dominates every scanned candidate. -/
theorem c1_all_matches_best_selection_witness :
    ∃ pre post, scoredCandidates 2025 0 fbReject "22-03-2024" = pre ++
        (DateInformation.mk (some "2024-03-22") (some "DD-MM-YYYY") 1
          (some "22-03-2024")) :: post ∧
      (∀ d ∈ scoredCandidates 2025 0 fbReject "22-03-2024", d.Confidence ≤
        (DateInformation.mk (some "2024-03-22") (some "DD-MM-YYYY") 1
          (some "22-03-2024")).Confidence) ∧
      (∀ d ∈ pre, d.Confidence <
        (DateInformation.mk (some "2024-03-22") (some "DD-MM-YYYY") 1
          (some "22-03-2024")).Confidence) :=
  (c1_all_matches_best_selection 2025 0 fbReject "22-03-2024").2 _ (by decide)

/-- C2: the confidence score equals the clamp to [0,1] of 0.8 minus the
stacking age penalties (0.3 beyond 50 years, a further 0.4 beyond 100) plus
the three 0.1 bonuses (slash-or-dash separator, 4-digit run, month token);
it always lies in [0,1]; and consequently the confidence of any result
returned by the extractor lies in [0,1]. -/
theorem c2_confidence_formula_and_range :
    (∀ (cy py : Int) (cs : List Char),
      calculateDateConfidence cy cs py =
        min (max ((0.8 : ℚ)
          - (if 50 < (cy - py).natAbs then (0.3 : ℚ) else 0)
          - (if 100 < (cy - py).natAbs then (0.4 : ℚ) else 0)
          + (if cs.contains '/' || cs.contains '-' then (0.1 : ℚ) else 0)
          + (if hasDigitRun4 cs then (0.1 : ℚ) else 0)
          + (if hasMonthTokenCI cs then (0.1 : ℚ) else 0)) 0) 1) ∧
    (∀ (cy py : Int) (cs : List Char),
      0 ≤ calculateDateConfidence cy cs py ∧ calculateDateConfidence cy cs py ≤ 1) ∧
    (∀ (cy tz : Int) (fb : String → Option Int) (t : String) (r : DateInformation),
      extractDateFromText cy tz fb t = some r →
      0 ≤ r.Confidence ∧ r.Confidence ≤ 1) := by
  refine ⟨fun cy py cs => calc_conf_formula cy cs py,
    fun cy py cs => ⟨calc_conf_nonneg cy cs py, calc_conf_le_one cy cs py⟩, ?_⟩
  intro cy tz fb t r hr
  rw [extract_eq_bestOf cy tz fb t] at hr
  obtain ⟨m, d0, _, hp, hrd⟩ :=
    scored_mem_shape cy tz fb t r (bestOf_mem _ _ hr)
  rw [hrd]
  exact ⟨le_of_lt (parse_conf_pos cy tz fb m d0 hp),
    parse_conf_le_one cy tz fb m d0 hp⟩

/-- Witness for C2 at a concrete extraction: the "22-03-2024" result has
confidence in [0,1]. -/
theorem c2_confidence_formula_and_range_witness :
    0 ≤ (DateInformation.mk (some "2024-03-22") (some "DD-MM-YYYY") 1
        (some "22-03-2024")).Confidence ∧
      (DateInformation.mk (some "2024-03-22") (some "DD-MM-YYYY") 1
        (some "22-03-2024")).Confidence ≤ 1 :=
  c2_confidence_formula_and_range.2.2 2025 0 fbReject "22-03-2024" _ (by decide)

/-- C8: a result returned by the extractor has its date present exactly when
its format tag and its matched-text field are present (all three are in fact
always present on a returned result). -/
theorem c8_presence_invariant (cy tz : Int) (fb : String → Option Int)
    (t : String) (r : DateInformation)
    (h : extractDateFromText cy tz fb t = some r) :
    (r.Date.isSome = true ↔
      (r.Format.isSome = true ∧ r.ExtractedFromText.isSome = true)) := by
  rw [extract_eq_bestOf cy tz fb t] at h
  obtain ⟨m, d0, _, hp, hrd⟩ := scored_mem_shape cy tz fb t r (bestOf_mem _ _ h)
  obtain ⟨h1, h2, _⟩ := parse_fields cy tz fb m d0 hp
  rw [hrd]
  exact iff_of_true h1 ⟨h2, rfl⟩

/-- Witness for C8 at a concrete extraction. -/
theorem c8_presence_invariant_witness :
    ((DateInformation.mk (some "2024-03-22") (some "DD-MM-YYYY") 1
        (some "22-03-2024")).Date.isSome = true ↔
      ((DateInformation.mk (some "2024-03-22") (some "DD-MM-YYYY") 1
        (some "22-03-2024")).Format.isSome = true ∧
       (DateInformation.mk (some "2024-03-22") (some "DD-MM-YYYY") 1
        (some "22-03-2024")).ExtractedFromText.isSome = true)) :=
  c8_presence_invariant 2025 0 fbReject "22-03-2024" _ (by decide)

/-- C7: extraction is total and failure-contained — the empty text and a text
with no date-shaped candidate ("no dates here") yield an absent result, and in
general the result is absent exactly when every collected candidate fails to
parse, so a single candidate's parse failure never propagates. (In this
embedding every function is total, mirroring that the source never throws:
the `try/catch` bodies contain no throwing operations and the fallback
`Invalid Date` case returns `null`.) -/
theorem c7_never_raises_absent_result :
    (∀ (cy tz : Int) (fb : String → Option Int),
      extractDateFromText cy tz fb "" = none) ∧
    (∀ (cy tz : Int) (fb : String → Option Int),
      extractDateFromText cy tz fb "no dates here" = none) ∧
    (∀ (cy tz : Int) (fb : String → Option Int) (t : String),
      extractDateFromText cy tz fb t = none ↔
        ∀ m ∈ allCandidates t, parseAndValidateDate cy tz fb m = none) := by
  refine ⟨fun cy tz fb => by rw [extractDateFromText, if_pos rfl], ?_, ?_⟩
  · intro cy tz fb
    rw [extract_eq_bestOf]
    have hc : allCandidates "no dates here" = [] := by decide
    rw [scoredCandidates, hc]
    rfl
  · intro cy tz fb t
    rw [extract_eq_bestOf]
    constructor
    · intro hnone m hm
      cases hp : parseAndValidateDate cy tz fb m with
      | none => rfl
      | some d =>
        exfalso
        have hmem : { d with ExtractedFromText := some (String.mk m) } ∈
            scoredCandidates cy tz fb t :=
          List.mem_filterMap.mpr ⟨m, hm, by rw [hp]; rfl⟩
        obtain ⟨b, hbs⟩ := bestOf_isSome _ (List.ne_nil_of_mem hmem)
          (scored_pos cy tz fb t)
        rw [hbs] at hnone
        cases hnone
    · intro hall
      have hs : scoredCandidates cy tz fb t = [] :=
        List.filterMap_eq_nil.mpr (fun m hm => by rw [hall m hm]; rfl)
      rw [hs]
      rfl

/-- Witness for C7: the concrete no-candidate text gives an absent result. -/
theorem c7_never_raises_absent_result_witness :
    extractDateFromText 2025 0 fbReject "no dates here" = none :=
  c7_never_raises_absent_result.2.1 2025 0 fbReject

/-- C9: a candidate parsed by the generic fallback (format tag
"Auto-detected") always carries the fixed confidence 0.6 (= `mkRat 6 10`),
bypassing the base-0.8 scoring; hence whenever some strict-format candidate
scores above 0.6, the selected result also scores above 0.6 and is not
fallback-parsed. -/
theorem c9_fallback_fixed_confidence :
    (∀ (cy tz : Int) (fb : String → Option Int) (cs : List Char)
       (d : DateInformation), parseAndValidateDate cy tz fb cs = some d →
       d.Format = some "Auto-detected" → d.Confidence = mkRat 6 10) ∧
    (∀ (cy tz : Int) (fb : String → Option Int) (t : String)
       (d : DateInformation), d ∈ scoredCandidates cy tz fb t →
       d.Format ≠ some "Auto-detected" → mkRat 6 10 < d.Confidence →
       ∃ r, extractDateFromText cy tz fb t = some r ∧
         mkRat 6 10 < r.Confidence ∧ r.Format ≠ some "Auto-detected") := by
  refine ⟨parse_auto_conf, ?_⟩
  intro cy tz fb t d hd _ hconf
  obtain ⟨b, hbs⟩ := bestOf_isSome _ (List.ne_nil_of_mem hd) (scored_pos cy tz fb t)
  have hble : mkRat 6 10 < b.Confidence :=
    lt_of_lt_of_le hconf
      (le_trans (maxConf_ge_mem _ _ hd) (bestOf_conf _ _ hbs))
  refine ⟨b, by rw [extract_eq_bestOf]; exact hbs, hble, ?_⟩
  intro hfmt
  obtain ⟨m, b0, _, hp, hbd⟩ := scored_mem_shape cy tz fb t b (bestOf_mem _ _ hbs)
  have hfmt0 : b0.Format = some "Auto-detected" := by rw [hbd] at hfmt; exact hfmt
  have : b.Confidence = mkRat 6 10 := by
    rw [hbd]
    exact parse_auto_conf cy tz fb m b0 hp hfmt0
  rw [this] at hble
  exact lt_irrefl _ hble

/-- Witness for C9: the strict "22-03-2024" candidate (confidence 1 > 0.6)
forces a non-fallback selection. -/
theorem c9_fallback_fixed_confidence_witness :
    ∃ r, extractDateFromText 2025 0 fbReject "22-03-2024" = some r ∧
      mkRat 6 10 < r.Confidence ∧ r.Format ≠ some "Auto-detected" :=
  c9_fallback_fixed_confidence.2 2025 0 fbReject "22-03-2024"
    (DateInformation.mk (some "2024-03-22") (some "DD-MM-YYYY") 1
      (some "22-03-2024"))
    (by decide) (by decide) (by decide)

/-- C10 as stated is false: rolled-over fields can push the constructed year
past 9999, where `toISOString` switches to the expanded `+YYYYYY-MM-DD` form.
The candidate "13/14/9999" strict-parses under "DD/MM/YYYY" with month field
14, rolling over to February of year 10000, and the stored date string
"+010000-02-13" is not of `YYYY-MM-DD` shape. -/
theorem c10_counterexample :
    extractDateFromText 2025 0 fbReject "13/14/9999" =
      some (DateInformation.mk (some "+010000-02-13") (some "DD/MM/YYYY")
        (mkRat 3 10) (some "13/14/9999")) ∧
    isYMDShape "+010000-02-13" = false :=
  ⟨by decide, by decide⟩

/-- C10 (amended): every present result's date field is the date portion of an
ISO-8601 serialization of a civil date, and it has the `YYYY-MM-DD` shape
whenever the serialized year lies in 0..9999 (which field rollover can
exceed). -/
theorem c10_iso_shape_amended (cy tz : Int) (fb : String → Option Int)
    (t : String) (r : DateInformation)
    (h : extractDateFromText cy tz fb t = some r) :
    ∃ (y : Int) (m d : Nat), r.Date = some (isoDateStr (y, m, d)) ∧
      (0 ≤ y → y ≤ 9999 → isYMDShape (isoDateStr (y, m, d)) = true) := by
  rw [extract_eq_bestOf cy tz fb t] at h
  obtain ⟨m, d0, _, hp, hrd⟩ := scored_mem_shape cy tz fb t r (bestOf_mem _ _ h)
  obtain ⟨k, hk⟩ := parse_date_iso cy tz fb m d0 hp
  refine ⟨(civilFromDays k).1, (civilFromDays k).2.1, (civilFromDays k).2.2,
    ?_, fun h0 h1 => isoDateStr_shape _ _ _ h0 h1⟩
  rw [hrd]
  show d0.Date = _
  rw [hk]

/-- Witness for C10 (amended) at a concrete extraction. -/
theorem c10_iso_shape_amended_witness :
    ∃ (y : Int) (m d : Nat),
      (DateInformation.mk (some "2024-03-22") (some "DD-MM-YYYY") 1
        (some "22-03-2024")).Date = some (isoDateStr (y, m, d)) ∧
      (0 ≤ y → y ≤ 9999 → isYMDShape (isoDateStr (y, m, d)) = true) :=
  c10_iso_shape_amended 2025 0 fbReject "22-03-2024" _ (by decide)

/-- C6 as stated is false: the result depends on ambient state, namely the
clock year read by `new Date()` inside `calculateDateConfidence` — the same
text "15/03/1974" scores confidence 1 when the current year is 2024
(`|2024-1974| = 50`, no penalty) but 0.7 when it is 2025 (51 > 50). -/
theorem c6_counterexample :
    extractDateFromText 2024 0 fbReject "15/03/1974" ≠
      extractDateFromText 2025 0 fbReject "15/03/1974" := by decide

/-- C6 (amended): extraction is deterministic once the ambient environment is
fixed — for a fixed input text, pattern table, current year, timezone offset
and host fallback parser, any two invocations return the same result; there
is no randomness. -/
theorem c6_determinism_amended (cy tz : Int) (fb : String → Option Int)
    (t : String) (r1 r2 : Option DateInformation)
    (h1 : extractDateFromText cy tz fb t = r1)
    (h2 : extractDateFromText cy tz fb t = r2) : r1 = r2 := by
  rw [← h1, ← h2]

/-- Witness for C6 (amended) at a concrete invocation. -/
theorem c6_determinism_amended_witness :
    extractDateFromText 2025 0 fbReject "22-03-2024" =
      extractDateFromText 2025 0 fbReject "22-03-2024" :=
  c6_determinism_amended 2025 0 fbReject "22-03-2024" _ _ rfl rfl

theorem qdivNat_day_iff (x : Int) :
    (qdivNat (mkRat x 1) 86400000 ≤ mkRat 30 1) ↔ x ≤ 30 * 86400000 := by
  rw [qdivNat_eq _ _ (by norm_num), Rat.mkRat_one, Rat.mkRat_one,
    div_le_iff (by norm_num : (0 : ℚ) < ((86400000 : Nat) : ℚ))]
  constructor <;> intro h <;> exact_mod_cast h

/-- C3: the consistency check filters the three optional inputs to entries
with a present (truthy) date; fewer than 2 yield "Unknown"; with 2 or more
whose date strings parse to timestamps `ts`, a max-minus-min span of at most
30 days yields "Consistent", a larger span "Inconsistent". -/
theorem c3_date_consistency (a b c : Option DateInformation) :
    ((([a, b, c].filterMap id).filter dateTruthy).length < 2 →
      analyzeDateConsistency a b c = "Unknown") ∧
    (∀ ts : List Int,
      (([a, b, c].filterMap id).filter dateTruthy).map
        (fun d => jsDateMsOfString (d.Date.getD "")) = ts.map some →
      2 ≤ (([a, b, c].filterMap id).filter dateTruthy).length →
      (listMax ts - listMin ts ≤ 30 * 86400000 →
        analyzeDateConsistency a b c = "Consistent") ∧
      (30 * 86400000 < listMax ts - listMin ts →
        analyzeDateConsistency a b c = "Inconsistent")) := by
  constructor
  · intro hlen
    rw [analyzeDateConsistency, if_pos hlen]
  · intro ts hts hlen
    have hnotlt : ¬ (([a, b, c].filterMap id).filter dateTruthy).length < 2 :=
      not_lt.mpr hlen
    have hall : ((([a, b, c].filterMap id).filter dateTruthy).map
        (fun d => jsDateMsOfString (d.Date.getD ""))).all Option.isSome = true := by
      rw [hts]
      simp [List.all_eq_true]
    have hfm : ((([a, b, c].filterMap id).filter dateTruthy).map
        (fun d => jsDateMsOfString (d.Date.getD ""))).filterMap id = ts := by
      rw [hts, List.filterMap_map]
      simpa using List.filterMap_some ts
    constructor
    · intro hspan
      simp only [analyzeDateConsistency]
      rw [if_neg hnotlt, if_pos hall, hfm, if_pos ((qdivNat_day_iff _).mpr hspan)]
    · intro hspan
      simp only [analyzeDateConsistency]
      rw [if_neg hnotlt, if_pos hall, hfm,
        if_neg (fun hcontra => absurd ((qdivNat_day_iff _).mp hcontra)
          (not_le.mpr hspan))]

/-- Witness for C3: dates two days apart are "Consistent". -/
theorem c3_date_consistency_witness :
    analyzeDateConsistency
      (some (DateInformation.mk (some "2024-03-14") none 0 none))
      (some (DateInformation.mk (some "2024-03-16") none 0 none)) none =
      "Consistent" :=
  ((c3_date_consistency _ _ _).2 [1710374400000, 1710547200000]
    (by decide) (by decide)).1 (by decide)

/-- C4 describes intended but dead code: `parseDate` holds the two-digit-year
expansion (`< 50` → 2000s, else 1900s), yet no entry of `DATE_FORMAT_MAP`
accepts a two-digit year, so the candidate "16/03/24" matches no strict format
and the expansion is never reached. The candidate falls to the host fallback
`new Date("16/03/24")` — Invalid Date in V8 (month field 16) — so the claimed
input yields an absent result, not a 2024 date; and under ANY host fallback
the result is the fixed-0.6 "Auto-detected" record, never the expansion. -/
theorem c4_two_digit_year_code_eval :
    extractDateFromText 2025 0 fbReject "Document Date: 16/03/24" = none ∧
    (∀ (cy tz : Int) (fb : String → Option Int) (r : DateInformation),
      extractDateFromText cy tz fb "Document Date: 16/03/24" = some r →
      r.Format = some "Auto-detected" ∧ r.Confidence = mkRat 6 10) := by
  refine ⟨by decide, ?_⟩
  intro cy tz fb r hr
  rw [extract_eq_bestOf] at hr
  obtain ⟨m, d0, hm, hp, hrd⟩ :=
    scored_mem_shape cy tz fb _ r (bestOf_mem _ _ hr)
  have hcand : allCandidates "Document Date: 16/03/24" = ["16/03/24".data] := by
    decide
  rw [hcand] at hm
  have hm2 : m = "16/03/24".data := by simpa using hm
  subst hm2
  rw [parseAndValidateDate,
    if_neg (by decide : ¬ ("16/03/24".data.isEmpty = true)),
    strictFormatPass_none cy tz "16/03/24".data DATE_FORMAT_MAP (by decide)] at hp
  cases hf : fb (String.mk "16/03/24".data) with
  | none => rw [hf] at hp; cases hp
  | some u =>
    rw [hf] at hp
    have hd0 : d0 = { Date := some (isoDateStr (civilFromDays u)),
                      Format := some "Auto-detected", Confidence := mkRat 6 10,
                      ExtractedFromText := some (String.mk "16/03/24".data) } :=
      (Option.some_inj.mp hp).symm
    rw [hrd, hd0]
    exact ⟨rfl, rfl⟩

/-- Witness for C4's universally-quantified part, under a host fallback that
parses the string (to the epoch): the result is the fixed-0.6 fallback
record. -/
theorem c4_two_digit_year_code_eval_witness :
    (DateInformation.mk (some "1970-01-01") (some "Auto-detected") (mkRat 6 10)
      (some "16/03/24")).Format = some "Auto-detected" ∧
    (DateInformation.mk (some "1970-01-01") (some "Auto-detected") (mkRat 6 10)
      (some "16/03/24")).Confidence = mkRat 6 10 :=
  c4_two_digit_year_code_eval.2 2025 0 (fun _ => some 0) _ (by decide)

/-- C5 as stated is false in east-of-UTC host timezones: the source builds
`new Date(2024, 2, 22)` at *local* midnight and serializes it with the UTC
`toISOString`, so at offset +330 (IST, the deployment region) the stored date
string is "2024-03-21", not the claimed "2024-03-22". -/
theorem c5_counterexample :
    extractDateFromText 2025 330 fbReject
      "Inspector General of Police APSP Bns, Amaravathi 22-03-2024" =
      some (DateInformation.mk (some "2024-03-21") (some "DD-MM-YYYY") 1
        (some "22-03-2024")) ∧
    (some "2024-03-21" : Option String) ≠ some "2024-03-22" :=
  ⟨by decide, by decide⟩

/-- C5 (amended): in a host timezone at or west of UTC (offset in (-1440, 0]
minutes east) and with the current year within 50 of 2024 (so no age
penalty), the stamp text extracts to date 2024-03-22, format "DD-MM-YYYY",
and confidence 1 ≥ 0.9; for any host fallback parser. -/
theorem c5_stamp_text_amended (cy tz : Int) (fb : String → Option Int)
    (hcy : (cy - 2024).natAbs ≤ 50) (htz1 : -1440 < tz) (htz2 : tz ≤ 0) :
    extractDateFromText cy tz fb
      "Inspector General of Police APSP Bns, Amaravathi 22-03-2024" =
      some (DateInformation.mk (some "2024-03-22") (some "DD-MM-YYYY") 1
        (some "22-03-2024")) := by
  have hiso : isoOfLocalDays tz 19804 = "2024-03-22" := by
    rw [isoOfLocalDays]
    have hf : Int.fdiv (19804 * 1440 - tz) 1440 = 19804 := by
      rw [Int.fdiv_eq_ediv _ (by norm_num)]
      omega
    rw [hf]
    decide
  have hconf : calculateDateConfidence cy "22-03-2024".data 2024 = 1 := by
    rw [calc_conf_formula,
      if_neg (by omega : ¬ 50 < (cy - 2024).natAbs),
      if_neg (by omega : ¬ 100 < (cy - 2024).natAbs),
      if_pos (by decide :
        ("22-03-2024".data.contains '/' || "22-03-2024".data.contains '-') = true),
      if_pos (by decide : hasDigitRun4 "22-03-2024".data = true),
      if_neg (by decide : ¬ (hasMonthTokenCI "22-03-2024".data = true))]
    norm_num
  have hsp1 : strictFormatPass cy tz "22-03-2024".data DATE_FORMAT_MAP =
      some (DateInformation.mk (some "2024-03-22") (some "DD-MM-YYYY") 1
        (some "22-03-2024")) := by
    simp only [DATE_FORMAT_MAP]
    rw [strictFormatPass_cons_miss _ _ _ _ _ _ (by decide),
      strictFormatPass_cons_hit _ _ _ _ _ _ 19804 (by decide) (by decide),
      show ((civilFromDays 19804).1 : Int) = 2024 from by decide, hiso, hconf]
  have hp1 : parseAndValidateDate cy tz fb "22-03-2024".data =
      some (DateInformation.mk (some "2024-03-22") (some "DD-MM-YYYY") 1
        (some "22-03-2024")) := by
    rw [parseAndValidateDate,
      if_neg (by decide : ¬ ("22-03-2024".data.isEmpty = true)), hsp1]
  have hcand : allCandidates
      "Inspector General of Police APSP Bns, Amaravathi 22-03-2024" =
      ["22-03-2024".data, "22-03-2024".data, "22-03-20".data] := by decide
  rw [extract_eq_bestOf]
  cases hfb : fb (String.mk "22-03-20".data) with
  | none =>
    have hp6 : parseAndValidateDate cy tz fb "22-03-20".data = none := by
      rw [parseAndValidateDate,
        if_neg (by decide : ¬ ("22-03-20".data.isEmpty = true)),
        strictFormatPass_none cy tz "22-03-20".data DATE_FORMAT_MAP (by decide),
        hfb]
    have hsc : scoredCandidates cy tz fb
        "Inspector General of Police APSP Bns, Amaravathi 22-03-2024" =
        [DateInformation.mk (some "2024-03-22") (some "DD-MM-YYYY") 1
          (some "22-03-2024"),
         DateInformation.mk (some "2024-03-22") (some "DD-MM-YYYY") 1
          (some "22-03-2024")] := by
      rw [scoredCandidates, hcand]
      simp only [List.filterMap_cons, List.filterMap_nil, hp1, hp6,
        Option.map_some', Option.map_none']
    rw [hsc]
    have hm1 : maxConf [DateInformation.mk (some "2024-03-22")
        (some "DD-MM-YYYY") 1 (some "22-03-2024")] = 1 := by
      rw [maxConf_cons, show maxConf [] = 0 from rfl]
      exact max_eq_left (by norm_num)
    rw [bestOf_cons, if_pos (by simp [hm1])]
  | some u =>
    have hp6 : parseAndValidateDate cy tz fb "22-03-20".data =
        some (DateInformation.mk (some (isoDateStr (civilFromDays u)))
          (some "Auto-detected") (mkRat 6 10) (some "22-03-20")) := by
      rw [parseAndValidateDate,
        if_neg (by decide : ¬ ("22-03-20".data.isEmpty = true)),
        strictFormatPass_none cy tz "22-03-20".data DATE_FORMAT_MAP (by decide),
        hfb]
    have hsc : scoredCandidates cy tz fb
        "Inspector General of Police APSP Bns, Amaravathi 22-03-2024" =
        [DateInformation.mk (some "2024-03-22") (some "DD-MM-YYYY") 1
          (some "22-03-2024"),
         DateInformation.mk (some "2024-03-22") (some "DD-MM-YYYY") 1
          (some "22-03-2024"),
         DateInformation.mk (some (isoDateStr (civilFromDays u)))
          (some "Auto-detected") (mkRat 6 10) (some "22-03-20")] := by
      rw [scoredCandidates, hcand]
      simp only [List.filterMap_cons, List.filterMap_nil, hp1, hp6,
        Option.map_some', Option.map_none']
    rw [hsc]
    have hm1 : maxConf
        [DateInformation.mk (some "2024-03-22") (some "DD-MM-YYYY") 1
          (some "22-03-2024"),
         DateInformation.mk (some (isoDateStr (civilFromDays u)))
          (some "Auto-detected") (mkRat 6 10) (some "22-03-20")] = 1 := by
      rw [maxConf_cons, maxConf_cons, show maxConf [] = 0 from rfl]
      rw [show (DateInformation.mk (some (isoDateStr (civilFromDays u)))
          (some "Auto-detected") (mkRat 6 10)
          (some "22-03-20")).Confidence = mkRat 6 10 from rfl,
        max_eq_left (le_of_lt fbConf_pos), max_eq_left fbConf_le_one]
    rw [bestOf_cons, if_pos (by simp [hm1])]

/-- Witness for C5 (amended) at the concrete environment (year 2025, UTC). -/
theorem c5_stamp_text_amended_witness :
    extractDateFromText 2025 0 fbReject
      "Inspector General of Police APSP Bns, Amaravathi 22-03-2024" =
      some (DateInformation.mk (some "2024-03-22") (some "DD-MM-YYYY") 1
        (some "22-03-2024")) :=
  c5_stamp_text_amended 2025 0 fbReject (by decide) (by decide) (by decide)
